import Mathlib

/-
Verification development for the music-catalog export pipeline
(src/export_data.py): data consolidation, track/embedding export,
projection rescaling, and the inverted search index.

The Python source is shallowly embedded below.  pandas dataframes become
lists of records, the gensim KeyedVectors store becomes an association
list from raw track URI to a rational vector, NaN-able scalar columns
become Option values, and numpy float arithmetic in the projection
rescaling is modelled over the rationals with an explicit marker for the
IEEE division 0/0 (NaN).
-/

namespace MusicExport

/-- A row of the track-metadata table (track_metadata.parquet), with the
columns read by build_enriched_data / export_tracks_json.  album_name is
Option because the source accesses it with row.get(..., ''). -/
structure TrackRow where
  track_uri : String
  artist_uri : String
  track_name : String
  artist_name : String
  album_name : Option String
deriving DecidableEq, Repr

/-- The shape of the genres cell of an artist row: pandas cells may hold
None/NaN, a numpy array (has .tolist), a python list, or anything else.
These are the four cases of normalize_genres in the source. -/
inductive GenreField where
  | null : GenreField
  | arr : List String → GenreField
  | lst : List String → GenreField
  | other : GenreField
deriving DecidableEq, Repr

/-- A row of the artist-info table (artist_info.parquet); popularity and
followers are Option to model NaN cells (filled with defaults). -/
structure ArtistRow where
  artist_id : String
  genres : GenreField
  artist_popularity : Option Int
  artist_followers : Option Int
deriving DecidableEq, Repr

/-- Splits a character list at a separator character; mirrors python's
str.split(sep) for a one-character separator (always at least one piece). -/
def splitOnChar (sep : Char) : List Char → List (List Char)
  | [] => [[]]
  | c :: cs =>
    let rest := splitOnChar sep cs
    if c = sep then [] :: rest
    else match rest with
      | [] => [[c]]
      | p :: ps => (c :: p) :: ps

/-- extract_id from the source: uri.split(":")[-1], the substring after
the last colon. -/
def extract_id (uri : String) : String :=
  String.mk ((splitOnChar ':' uri.toList).getLastD uri.toList)

/-- normalize_genres from the source: None/NaN to [], array-like via
tolist, list copied, anything else to []. -/
def normalize_genres : GenreField → List String
  | GenreField.null => []
  | GenreField.arr l => l
  | GenreField.lst l => l
  | GenreField.other => []

/-- A row of the enriched dataframe produced by build_enriched_data:
track columns plus extracted ids, playlist count, normalized genres and
defaulted artist attributes. -/
structure Enriched where
  track_uri : String
  track_id : String
  artist_id : String
  track_name : String
  artist_name : String
  album_name : Option String
  playlist_count : Nat
  genres : List String
  artist_popularity : Int
  artist_followers : Int
deriving DecidableEq, Repr

/-- One enriched row from a track row and its (optional) artist match.
A left-join miss leaves NaN in the artist columns, which
normalize_genres sends to [] and fillna(50)/fillna(0) default. -/
def enrichRow (pc : String → Nat) (t : TrackRow) (a : Option ArtistRow) : Enriched :=
  { track_uri := t.track_uri
    track_id := extract_id t.track_uri
    artist_id := extract_id t.artist_uri
    track_name := t.track_name
    artist_name := t.artist_name
    album_name := t.album_name
    playlist_count := pc t.track_uri
    genres := normalize_genres (match a with | some ar => ar.genres | none => GenreField.null)
    artist_popularity := ((a.bind (fun ar => ar.artist_popularity)).getD 50)
    artist_followers := ((a.bind (fun ar => ar.artist_followers)).getD 0) }

/-- pandas merge(..., on='artist_id', how='left'): each track row yields
one output row per matching artist row, or a single row with NaN artist
columns when there is no match; left order is preserved. -/
def leftJoin (aRows : List ArtistRow) (pc : String → Nat) (t : TrackRow) : List Enriched :=
  match aRows.filter (fun a => a.artist_id = extract_id t.artist_uri) with
  | [] => [enrichRow pc t none]
  | m :: ms => (m :: ms).map (fun a => enrichRow pc t (some a))

/-- The enriched dataframe just before drop_duplicates: ids extracted,
playlist counts attached, artist info merged, fields normalized, and
rows filtered to track URIs present in the embedding vocabulary. -/
def preDedup (wv : List (String × List ℚ)) (tRows : List TrackRow)
    (aRows : List ArtistRow) (pc : String → Nat) : List Enriched :=
  (tRows.flatMap (leftJoin aRows pc)).filter
    (fun r => (List.lookup r.track_uri wv).isSome)

/-- drop_duplicates(subset=key, keep='first'): keep a row only when its
key has not been seen in an earlier row. -/
def dedupFirst {α : Type} (key : α → String) : List String → List α → List α
  | _, [] => []
  | seen, r :: rs =>
    if key r ∈ seen then dedupFirst key seen rs
    else r :: dedupFirst key (key r :: seen) rs

/-- build_enriched_data from the source: merge, normalize, filter to the
vocabulary, deduplicate by track_uri keeping the first occurrence.  The
playlist-count source is the optional external input, passed as a map
from track URI to count (identically 0 when absent). -/
def build_enriched_data (wv : List (String × List ℚ)) (tRows : List TrackRow)
    (aRows : List ArtistRow) (pc : String → Nat) : List Enriched :=
  dedupFirst (fun r => r.track_uri) [] (preDedup wv tRows aRows pc)

/-- The public track record written to tracks.json. -/
structure Track where
  id : String
  name : String
  artist : String
  album : String
  genres : List String
  popularity : Int
  playlistCount : Nat
deriving DecidableEq, Repr

/-- The record built per row in export_tracks_json: note id is the raw
row track_uri (line 117 of the source), genres are truncated to 5. -/
def toTrack (r : Enriched) : Track :=
  { id := r.track_uri
    name := r.track_name
    artist := r.artist_name
    album := r.album_name.getD ""
    genres := r.genres.take 5
    popularity := r.artist_popularity
    playlistCount := r.playlist_count }

/-- export_tracks_json: the ordered list of track records, one per
enriched row, in dataframe order. -/
def export_tracks_json (enriched : List Enriched) : List Track :=
  enriched.map toTrack

/-- export_embeddings_binary: the embedding matrix, one row per enriched
row in the same order, each row the vocabulary vector of the row's
track_uri (wv[uri]; the getD branch is unreachable because
build_enriched_data filtered to vocabulary members). -/
def export_embeddings_binary (wv : List (String × List ℚ)) (enriched : List Enriched) :
    List (List ℚ) :=
  enriched.map (fun r => (List.lookup r.track_uri wv).getD [])

/-- The sidecar embeddings_meta.json {numTracks, dimensions}: numTracks
is shape[0], dimensions is shape[1].  np.array of an empty list of rows
is one-dimensional, so shape[1] raises IndexError there: modelled as
none. -/
def embeddings_meta (embeddings : List (List ℚ)) : Option (Nat × Nat) :=
  match embeddings with
  | [] => none
  | v :: _ => some (embeddings.length, v.length)

/-- The binary blob written by tofile: the matrix rows flattened in
row-major order. -/
def embeddings_blob (embeddings : List (List ℚ)) : List ℚ :=
  embeddings.flatten

/-- The character class of the regex [a-z0-9]: lowercase ASCII letters
and ASCII digits. -/
def isTokenChar (c : Char) : Bool :=
  decide (('a' ≤ c ∧ c ≤ 'z') ∨ ('0' ≤ c ∧ c ≤ '9'))

/-- re.findall for the pattern [a-z0-9]+ over a character list: the
maximal runs of token characters, in order.  The first argument is the
reversed current run. -/
def tokenRuns : List Char → List Char → List (List Char)
  | cur, [] =>
    (match cur with
     | [] => []
     | _ :: _ => [cur.reverse])
  | cur, c :: cs =>
    if isTokenChar c then tokenRuns (c :: cur) cs
    else
      (match cur with
       | [] => tokenRuns [] cs
       | _ :: _ => cur.reverse :: tokenRuns [] cs)

/-- re.findall(r'[a-z0-9]+', text.lower()) from the source tokenizer. -/
def findTokens (s : String) : List String :=
  (tokenRuns [] (s.toList.map Char.toLower)).map (fun cs => String.mk cs)

/-- tokenize from build_search_index: empty text short-circuits to [];
otherwise lowercase, take the maximal alphanumeric runs, and keep the
tokens of length at least 2. -/
def tokenize (s : String) : List String :=
  if s = "" then []
  else (findTokens s).filter (fun t => 2 ≤ t.length)

/-- Modelled from the spec: "lowercase the input string, then extract
maximal runs of ASCII letters and digits as tokens (all other
characters are separators), discard tokens shorter than 2 characters",
with no special case for the empty string.  Kept separate from the
source-side tokenize for the refinement comparison. -/
def tokenizeSpec (s : String) : List String :=
  (findTokens s).filter (fun t => 2 ≤ t.length)

/-- One defaultdict update of build_search_index: append position i to
the postings of token tok only if it is not already present; other
tokens are untouched.  The index is modelled as the total map a python
defaultdict(list) denotes (absent key = empty list). -/
def addPosting (index : String → List Nat) (i : Nat) (tok : String) :
    String → List Nat :=
  fun t =>
    if t = tok then (if i ∈ index tok then index tok else index tok ++ [i])
    else index t

/-- The inner loop of build_search_index over the token list of one
field. -/
def indexTokens (index : String → List Nat) (i : Nat) (toks : List String) :
    String → List Nat :=
  toks.foldl (fun acc tok => addPosting acc i tok) index

/-- The body of build_search_index for track at position i: first the
name tokens, then the artist tokens. -/
def indexTrack (index : String → List Nat) (i : Nat) (tr : Track) :
    String → List Nat :=
  indexTokens (indexTokens index i (tokenize tr.name)) i (tokenize tr.artist)

/-- The enumerate loop of build_search_index starting at position i. -/
def buildIndexFrom (index : String → List Nat) (i : Nat) :
    List Track → (String → List Nat)
  | [] => index
  | tr :: rest => buildIndexFrom (indexTrack index i tr) (i + 1) rest

/-- build_search_index from the source: fold the per-track indexing over
the enumerated track list, starting from the empty defaultdict. -/
def build_search_index (tracks : List Track) : String → List Nat :=
  buildIndexFrom (fun _ => []) 0 tracks

/-- Per-axis minimum, coords.min(axis=0); numpy rejects an empty axis,
so the [] branch is unreachable in context. -/
def axisMin : List ℚ → ℚ
  | [] => 0
  | x :: xs => xs.foldl min x

/-- Per-axis maximum, coords.max(axis=0). -/
def axisMax : List ℚ → ℚ
  | [] => 0
  | x :: xs => xs.foldl max x

/-- One coordinate of the rescaling 2 * (x - lo) / (hi - lo) - 1 in
compute_tsne.  When hi = lo every numerator in context is also 0, so
IEEE evaluates 0/0 to NaN (the source suppresses the numpy warning);
the NaN outcome is modelled as none. -/
def rescaleCoord (lo hi x : ℚ) : Option ℚ :=
  if hi = lo then none else some (2 * (x - lo) / (hi - lo) - 1)

/-- The post-processing of compute_tsne on one axis: rescale every value
by the axis minimum and maximum. -/
def normalizeAxis (xs : List ℚ) : List (Option ℚ) :=
  xs.map (rescaleCoord (axisMin xs) (axisMax xs))

/-- The file-writing skeleton of main() after loading: which output
files have been written when the run ends, and whether it exited
cleanly.  export_tracks_json writes tracks.json unconditionally;
export_embeddings_binary writes embeddings.bin (tofile) and then reads
embeddings.shape[1], which raises IndexError when the matrix has no
rows (np.array([]) is one-dimensional), aborting the run before the
sidecar is written.  On the non-empty path the remaining stages each
write their file; the external t-SNE call is out of scope and treated
as succeeding. -/
def runPipeline (wv : List (String × List ℚ)) (tRows : List TrackRow)
    (aRows : List ArtistRow) (pc : String → Nat) : List String × Bool :=
  let enriched := build_enriched_data wv tRows aRows pc
  let embeddings := export_embeddings_binary wv enriched
  match embeddings with
  | [] => (["tracks.json", "embeddings.bin"], false)
  | _ :: _ =>
    (["tracks.json", "embeddings.bin", "embeddings_meta.json",
      "tsne_coords.json", "search_index.json", "genres.json"], true)

/-! ### Helper lemmas -/

theorem mem_of_lookup_eq_some {α β : Type} [BEq α] [LawfulBEq α]
    {l : List (α × β)} {a : α} {b : β}
    (h : List.lookup a l = some b) : (a, b) ∈ l := by
  induction l with
  | nil => simp [List.lookup] at h
  | cons p rest ih =>
    obtain ⟨k, v⟩ := p
    rw [List.lookup] at h
    split at h
    · next heq =>
      obtain rfl : a = k := by simpa using heq
      obtain rfl : v = b := by simpa using h
      exact List.mem_cons_self _ _
    · exact List.mem_cons_of_mem _ (ih h)

theorem dedupFirst_subset {α : Type} (key : α → String) :
    ∀ (seen : List String) (l : List α) (r : α),
      r ∈ dedupFirst key seen l → r ∈ l := by
  intro seen l
  induction l generalizing seen with
  | nil => intro r h; simp [dedupFirst] at h
  | cons x xs ih =>
    intro r h
    rw [dedupFirst] at h
    split at h
    · exact List.mem_cons_of_mem _ (ih seen r h)
    · rcases List.mem_cons.mp h with rfl | h'
      · exact List.mem_cons_self _ _
      · exact List.mem_cons_of_mem _ (ih _ r h')

theorem dedupFirst_key_not_mem {α : Type} (key : α → String) :
    ∀ (seen : List String) (l : List α) (r : α),
      r ∈ dedupFirst key seen l → key r ∉ seen := by
  intro seen l
  induction l generalizing seen with
  | nil => intro r h; simp [dedupFirst] at h
  | cons x xs ih =>
    intro r h
    rw [dedupFirst] at h
    split at h
    · exact ih seen r h
    · next hx =>
      rcases List.mem_cons.mp h with rfl | h'
      · exact hx
      · intro hcontra
        exact ih _ r h' (List.mem_cons_of_mem _ hcontra)

theorem dedupFirst_pairwise {α : Type} (key : α → String) :
    ∀ (seen : List String) (l : List α),
      (dedupFirst key seen l).Pairwise (fun a b => key a ≠ key b) := by
  intro seen l
  induction l generalizing seen with
  | nil => exact List.Pairwise.nil
  | cons x xs ih =>
    rw [dedupFirst]
    split
    · exact ih seen
    · refine List.Pairwise.cons ?_ (ih _)
      intro b hb
      have : key b ∉ key x :: seen := dedupFirst_key_not_mem key _ _ b hb
      intro hcontra
      exact this (hcontra ▸ List.mem_cons_self _ _)

theorem dedupFirst_find? {α : Type} (key : α → String) :
    ∀ (l : List α) (seen : List String) (u : String), u ∉ seen →
      (dedupFirst key seen l).find? (fun r => key r == u) =
        l.find? (fun r => key r == u) := by
  intro l
  induction l with
  | nil => intro seen u _; rfl
  | cons x xs ih =>
    intro seen u hu
    rw [dedupFirst]
    split
    · next hx =>
      have hne : (key x == u) = false := by
        simp only [beq_eq_false_iff_ne, ne_eq]
        intro hcontra
        exact hu (hcontra ▸ hx)
      rw [List.find?_cons, hne]
      exact ih seen u hu
    · next hx =>
      by_cases hk : key x = u
      · rw [List.find?_cons, List.find?_cons]
        have : (key x == u) = true := by simpa using hk
        rw [this]
      · have hne : (key x == u) = false := by simpa using hk
        rw [List.find?_cons, List.find?_cons, hne]
        refine ih _ u ?_
        intro hcontra
        rcases List.mem_cons.mp hcontra with h1 | h1
        · exact hk h1.symm
        · exact hu h1

theorem mem_build_lookup {wv : List (String × List ℚ)} {tRows : List TrackRow}
    {aRows : List ArtistRow} {pc : String → Nat} {r : Enriched}
    (h : r ∈ build_enriched_data wv tRows aRows pc) :
    (List.lookup r.track_uri wv).isSome = true := by
  have h1 : r ∈ preDedup wv tRows aRows pc :=
    dedupFirst_subset _ _ _ _ h
  exact (List.mem_filter.mp h1).2

theorem addPosting_mem_mono {index : String → List Nat} {j : Nat} {t : String}
    (i : Nat) (tok : String) (h : j ∈ index t) : j ∈ addPosting index i tok t := by
  rw [addPosting]
  split
  · next heq =>
    subst heq
    split
    · exact h
    · exact List.mem_append_left _ h
  · exact h

theorem addPosting_self_mem (index : String → List Nat) (i : Nat) (tok : String) :
    i ∈ addPosting index i tok tok := by
  rw [addPosting, if_pos rfl]
  split
  · next h => exact h
  · exact List.mem_append_right _ (List.mem_singleton.mpr rfl)

theorem indexTokens_mem_mono (toks : List String) :
    ∀ {index : String → List Nat} (i : Nat) {j : Nat} {t : String},
      j ∈ index t → j ∈ indexTokens index i toks t := by
  induction toks with
  | nil => intro index i j t h; exact h
  | cons tok rest ih =>
    intro index i j t h
    exact ih i (addPosting_mem_mono i tok h)

theorem indexTokens_self_mem (toks : List String) :
    ∀ (index : String → List Nat) (i : Nat) (tok : String), tok ∈ toks →
      i ∈ indexTokens index i toks tok := by
  induction toks with
  | nil => intro _ _ _ h; simp at h
  | cons hd rest ih =>
    intro index i tok h
    rcases List.mem_cons.mp h with rfl | h'
    · exact indexTokens_mem_mono rest i (addPosting_self_mem index i tok)
    · exact ih _ i tok h'

theorem indexTrack_mem_mono {index : String → List Nat} {j : Nat} {t : String}
    (i : Nat) (tr : Track) (h : j ∈ index t) : j ∈ indexTrack index i tr t :=
  indexTokens_mem_mono _ i (indexTokens_mem_mono _ i h)

theorem indexTrack_self_mem {index : String → List Nat} {i : Nat} {tok : String}
    (tr : Track) (h : tok ∈ tokenize tr.name ∨ tok ∈ tokenize tr.artist) :
    i ∈ indexTrack index i tr tok := by
  rcases h with h | h
  · exact indexTokens_mem_mono _ i (indexTokens_self_mem _ _ i tok h)
  · exact indexTokens_self_mem _ _ i tok h

theorem buildIndexFrom_mem_mono :
    ∀ (ts : List Track) {index : String → List Nat} (i : Nat) {j : Nat} {t : String},
      j ∈ index t → j ∈ buildIndexFrom index i ts t := by
  intro ts
  induction ts with
  | nil => intro index i j t h; exact h
  | cons hd rest ih =>
    intro index i j t h
    exact ih (i + 1) (indexTrack_mem_mono i hd h)

theorem buildIndexFrom_self_mem :
    ∀ (ts : List Track) (k : Nat) {tr : Track} {tok : String}
      (index : String → List Nat) (i : Nat),
      ts[k]? = some tr → (tok ∈ tokenize tr.name ∨ tok ∈ tokenize tr.artist) →
      (i + k) ∈ buildIndexFrom index i ts tok := by
  intro ts
  induction ts with
  | nil => intro k tr tok index i h _; simp at h
  | cons hd rest ih =>
    intro k tr tok index i h htok
    cases k with
    | zero =>
      obtain rfl : hd = tr := by simpa using h
      rw [Nat.add_zero]
      exact buildIndexFrom_mem_mono rest (i + 1) (indexTrack_self_mem hd htok)
    | succ m =>
      have h' : rest[m]? = some tr := by simpa using h
      have heq : i + (m + 1) = (i + 1) + m := by omega
      rw [heq]
      exact ih m _ (i + 1) h' htok

/-- The invariant carried while indexing track i: every postings list is
strictly increasing and every posted position is at most i. -/
def IndexInv (n : Nat) (index : String → List Nat) : Prop :=
  ∀ t : String, (index t).Pairwise (fun a b => a < b) ∧ ∀ j ∈ index t, j < n

theorem indexInv_empty : IndexInv 0 (fun _ => []) := by
  intro t
  exact ⟨List.Pairwise.nil, fun j hj => absurd hj (List.not_mem_nil j)⟩

theorem addPosting_inv {index : String → List Nat} {i : Nat} (tok : String)
    (h : IndexInv (i + 1) index) : IndexInv (i + 1) (addPosting index i tok) := by
  intro t
  rw [addPosting]
  split
  · split
    · exact h tok
    · next hni =>
      obtain ⟨hp, hb⟩ := h tok
      constructor
      · rw [List.pairwise_append]
        refine ⟨hp, by simp, ?_⟩
        intro a ha b hb'
        have hbi : b = i := List.mem_singleton.mp hb'
        have h1 : a < i + 1 := hb a ha
        have h2 : a ≠ i := fun hcontra => hni (hcontra ▸ ha)
        omega
      · intro j hj
        rcases List.mem_append.mp hj with hj | hj
        · exact hb j hj
        · have hji : j = i := List.mem_singleton.mp hj
          omega
  · exact h t

theorem indexTokens_inv (toks : List String) :
    ∀ {index : String → List Nat} {i : Nat},
      IndexInv (i + 1) index → IndexInv (i + 1) (indexTokens index i toks) := by
  induction toks with
  | nil => intro _ _ h; exact h
  | cons tok rest ih =>
    intro index i h
    exact ih (addPosting_inv tok h)

theorem indexTrack_inv (tr : Track) {index : String → List Nat} {i : Nat}
    (h : IndexInv (i + 1) index) : IndexInv (i + 1) (indexTrack index i tr) :=
  indexTokens_inv _ (indexTokens_inv _ h)

theorem buildIndexFrom_pairwise :
    ∀ (ts : List Track) {index : String → List Nat} (i : Nat), IndexInv i index →
      ∀ t : String, (buildIndexFrom index i ts t).Pairwise (fun a b => a < b) := by
  intro ts
  induction ts with
  | nil => intro index i h t; exact (h t).1
  | cons hd rest ih =>
    intro index i h t
    have h1 : IndexInv (i + 1) index := by
      intro s
      exact ⟨(h s).1, fun j hj => Nat.lt_succ_of_lt ((h s).2 j hj)⟩
    exact ih (i + 1) (indexTrack_inv hd h1) t

theorem emb_row_mem {wv : List (String × List ℚ)} {tRows : List TrackRow}
    {aRows : List ArtistRow} {pc : String → Nat} {v : List ℚ}
    (h : v ∈ export_embeddings_binary wv (build_enriched_data wv tRows aRows pc)) :
    ∃ u, (u, v) ∈ wv := by
  rw [export_embeddings_binary] at h
  obtain ⟨r, hr, rfl⟩ := List.mem_map.mp h
  have hs := mem_build_lookup hr
  obtain ⟨w, hw⟩ := Option.isSome_iff_exists.mp hs
  refine ⟨r.track_uri, ?_⟩
  rw [hw]
  exact mem_of_lookup_eq_some hw

/-! ### Concrete fixtures used by counterexamples and witnesses -/

/-- The identically-zero playlist-count source (raw playlist data
absent). -/
def pcZero : String → Nat := fun _ => 0

/-- A two-entry embedding vocabulary. -/
def wvW : List (String × List ℚ) := [("t1", [1, 0]), ("t2", [0, 1])]

/-- A metadata row whose track URI is in wvW. -/
def rowW : TrackRow := ⟨"t1", "a:ar1", "Song A", "Art X", none⟩

/-- The track record the pipeline produces from rowW. -/
def trackW : Track := ⟨"t1", "Song A", "Art X", "", [], 50, 0⟩

/-- Two distinct raw track URIs sharing the canonical suffix "x". -/
def wvDup : List (String × List ℚ) := [("a:x", [1]), ("b:x", [2])]

def rowDupA : TrackRow := ⟨"a:x", "ar:1", "N1", "A1", none⟩

def rowDupB : TrackRow := ⟨"b:x", "ar:1", "N2", "A1", none⟩

/-- A row with a colon-separated spotify URI. -/
def wvUri : List (String × List ℚ) := [("spotify:track:abc123", [1])]

def rowUri : TrackRow := ⟨"spotify:track:abc123", "spotify:artist:z", "N", "A", none⟩

/-- A metadata row used with an empty vocabulary. -/
def rowC8 : TrackRow := ⟨"spotify:track:aaa", "spotify:artist:bbb", "Song", "Artist", none⟩

/-! ### Claims -/

/-- C1: positional alignment (I1).  For every position i, row i of the
exported embedding matrix is exactly the vocabulary lookup of the
identifier of record i of the exported track list, both derived from
the same consolidated order. -/
theorem positional_alignment (wv : List (String × List ℚ)) (tRows : List TrackRow)
    (aRows : List ArtistRow) (pc : String → Nat) (i : Nat) (t : Track)
    (h : (export_tracks_json (build_enriched_data wv tRows aRows pc))[i]? = some t) :
    (export_embeddings_binary wv (build_enriched_data wv tRows aRows pc))[i]? =
      List.lookup t.id wv := by
  rw [export_tracks_json, List.getElem?_map] at h
  obtain ⟨r, hr, hrt⟩ := Option.map_eq_some'.mp h
  have hmem : r ∈ build_enriched_data wv tRows aRows pc := List.getElem?_mem hr
  have hs : (List.lookup r.track_uri wv).isSome = true := mem_build_lookup hmem
  obtain ⟨v, hv⟩ := Option.isSome_iff_exists.mp hs
  rw [export_embeddings_binary, List.getElem?_map, hr]
  subst hrt
  show some ((List.lookup r.track_uri wv).getD []) = List.lookup (toTrack r).id wv
  have hid : (toTrack r).id = r.track_uri := rfl
  rw [hid, hv]
  rfl

/-- Witness for C1 at a concrete input: the first matrix row is the
vocabulary entry of the first exported track. -/
theorem positional_alignment_witness :
    (export_embeddings_binary wvW (build_enriched_data wvW [rowW] [] pcZero))[0]? =
      List.lookup trackW.id wvW :=
  positional_alignment wvW [rowW] [] pcZero 0 trackW (by decide)

/-- C2: vocabulary closure (I2).  Every record of the exported track
list has an identifier that is a key of the embedding vocabulary;
non-members were filtered out before any output was produced. -/
theorem vocabulary_closure (wv : List (String × List ℚ)) (tRows : List TrackRow)
    (aRows : List ArtistRow) (pc : String → Nat) (t : Track)
    (h : t ∈ export_tracks_json (build_enriched_data wv tRows aRows pc)) :
    (List.lookup t.id wv).isSome = true := by
  rw [export_tracks_json] at h
  obtain ⟨r, hr, rfl⟩ := List.mem_map.mp h
  exact mem_build_lookup hr

/-- Witness for C2 at a concrete input. -/
theorem vocabulary_closure_witness : (List.lookup trackW.id wvW).isSome = true :=
  vocabulary_closure wvW [rowW] [] pcZero trackW (by decide)

/-- C3 counterexample: two source rows with distinct raw track URIs
"a:x" and "b:x" (both in the vocabulary) share the canonical identifier
"x", and the consolidated set keeps both, so it does not contain at
most one record per canonical track identifier. -/
theorem identifier_uniqueness_counterexample :
    ¬ ((build_enriched_data wvDup [rowDupA, rowDupB] [] pcZero).map
        (fun r => extract_id r.track_uri)).Nodup := by decide

/-- C3 amended: the consolidated set contains at most one record per
raw track identifier (the full track_uri, on which drop_duplicates
operates), and the record kept for each raw identifier is the first
occurrence in the consolidated (filtered, merge-ordered) row order. -/
theorem identifier_uniqueness_raw (wv : List (String × List ℚ)) (tRows : List TrackRow)
    (aRows : List ArtistRow) (pc : String → Nat) :
    (build_enriched_data wv tRows aRows pc).Pairwise
      (fun a b => a.track_uri ≠ b.track_uri) ∧
    ∀ u : String,
      (build_enriched_data wv tRows aRows pc).find? (fun r => r.track_uri == u) =
        (preDedup wv tRows aRows pc).find? (fun r => r.track_uri == u) :=
  ⟨dedupFirst_pairwise _ _ _,
   fun u => dedupFirst_find? _ _ _ u (List.not_mem_nil u)⟩

/-- C4 counterexample: with the source row track_uri
"spotify:track:abc123", the exported id field is the full URI, not the
substring "abc123" after the last colon. -/
theorem id_field_counterexample :
    ¬ (∀ t ∈ export_tracks_json (build_enriched_data wvUri [rowUri] [] pcZero),
        t.id = extract_id rowUri.track_uri) := by decide

/-- C4 amended: for every record in the exported track list, the id
field is the raw track_uri of the source row; the canonical extraction
extract_id exists in the code but is not applied to the exported id. -/
theorem id_field_is_raw_uri (wv : List (String × List ℚ)) (tRows : List TrackRow)
    (aRows : List ArtistRow) (pc : String → Nat) :
    (export_tracks_json (build_enriched_data wv tRows aRows pc)).map Track.id =
      (build_enriched_data wv tRows aRows pc).map (fun r => r.track_uri) := by
  rw [export_tracks_json, List.map_map]
  rfl

/-- C5: the tokenizer lowercases, extracts maximal runs of ASCII
letters and digits, and discards tokens shorter than 2 characters
(tokenizeSpec is that rule verbatim); on "Track-Name 2 Ft. DJ" it
yields exactly ["track", "name", "ft", "dj"]. -/
theorem tokenizer_rule :
    tokenize "Track-Name 2 Ft. DJ" = ["track", "name", "ft", "dj"] ∧
    ∀ s : String, tokenize s = tokenizeSpec s := by
  refine ⟨by decide, fun s => ?_⟩
  by_cases hs : s = ""
  · subst hs; decide
  · rw [tokenize, tokenizeSpec, if_neg hs]

/-- C6: for every track position i and every token of that track's name
or artist, the search index postings of the token contain i exactly
once. -/
theorem search_index_postings (tracks : List Track) (i : Nat) (tr : Track) (tok : String)
    (h : tracks[i]? = some tr)
    (htok : tok ∈ tokenize tr.name ∨ tok ∈ tokenize tr.artist) :
    (build_search_index tracks tok).count i = 1 := by
  have hmem : i ∈ build_search_index tracks tok := by
    have := buildIndexFrom_self_mem tracks i (fun _ => []) 0 h htok
    simpa using this
  have hpw : (build_search_index tracks tok).Pairwise (fun a b => a < b) :=
    buildIndexFrom_pairwise tracks 0 indexInv_empty tok
  have hnd : (build_search_index tracks tok).Nodup :=
    hpw.imp (fun hab => Nat.ne_of_lt hab)
  exact List.count_eq_one_of_mem hnd hmem

/-- Witness for C6 at a concrete input. -/
theorem search_index_postings_witness :
    (build_search_index [trackW] "song").count 0 = 1 :=
  search_index_postings [trackW] 0 trackW "song" rfl (Or.inl (by decide))

/-- C7: at the failing input (an axis on which all t-SNE values are
equal, here [5, 5]) the rescaling divides 0 by 0 and every output entry
on the axis is NaN (modelled as none); the claimed non-NaN fallback
does not exist in the code. -/
theorem degenerate_axis_nan : normalizeAxis [5, 5] = [none, none] := by decide

/-- C8 counterexample: with an empty embedding vocabulary the run does
abort with a non-zero exit, but it does not produce no outputs:
tracks.json and embeddings.bin are already written when the abort
happens. -/
theorem empty_vocab_counterexample :
    (runPipeline [] [rowC8] [] pcZero).2 = false ∧
    (runPipeline [] [rowC8] [] pcZero).1 ≠ [] := by decide

/-- C8 amended: if the embedding vocabulary is empty the run always
aborts with a non-zero exit, but not through an explicit check: the
empty consolidated set makes export_embeddings_binary produce a 0-row
matrix, reading its second shape component raises an uncaught
IndexError, and by then tracks.json (an empty track list) and
embeddings.bin (an empty blob) have already been written and remain. -/
theorem empty_vocab_aborts_after_partial_outputs (tRows : List TrackRow)
    (aRows : List ArtistRow) (pc : String → Nat) :
    runPipeline [] tRows aRows pc = (["tracks.json", "embeddings.bin"], false) := by
  have h1 : preDedup [] tRows aRows pc = [] := by
    rw [preDedup]
    apply List.filter_eq_nil_iff.mpr
    intro r _
    simp [List.lookup]
  have h2 : build_enriched_data [] tRows aRows pc = [] := by
    rw [build_enriched_data, h1]
    rfl
  rw [runPipeline, h2]
  rfl

/-- C9: every postings list of the search index is strictly increasing
(sorted ascending with no duplicates). -/
theorem postings_strictly_increasing (tracks : List Track) (tok : String) :
    (build_search_index tracks tok).Pairwise (fun a b => a < b) :=
  buildIndexFrom_pairwise tracks 0 indexInv_empty tok

/-- C10: the sidecar numTracks equals the length of the exported track
list, and the binary blob holds exactly numTracks * dimensions values,
when every vocabulary vector has the run's fixed dimension D. -/
theorem sidecar_consistency (wv : List (String × List ℚ)) (tRows : List TrackRow)
    (aRows : List ArtistRow) (pc : String → Nat) (D N dims : Nat)
    (hD : ∀ p ∈ wv, (Prod.snd p).length = D)
    (h : embeddings_meta
          (export_embeddings_binary wv (build_enriched_data wv tRows aRows pc)) =
        some (N, dims)) :
    N = (export_tracks_json (build_enriched_data wv tRows aRows pc)).length ∧
    (embeddings_blob
        (export_embeddings_binary wv (build_enriched_data wv tRows aRows pc))).length =
      N * dims := by
  have hrows : ∀ v ∈ export_embeddings_binary wv (build_enriched_data wv tRows aRows pc),
      v.length = D := by
    intro v hv
    obtain ⟨u, hu⟩ := emb_row_mem hv
    exact hD (u, v) hu
  obtain ⟨v, rest, hcons⟩ : ∃ v rest,
      export_embeddings_binary wv (build_enriched_data wv tRows aRows pc) = v :: rest := by
    rcases hemb : export_embeddings_binary wv (build_enriched_data wv tRows aRows pc) with
      _ | ⟨v, rest⟩
    · rw [hemb] at h
      simp [embeddings_meta] at h
    · exact ⟨v, rest, rfl⟩
  rw [hcons] at h hrows ⊢
  rw [embeddings_meta] at h
  obtain ⟨hN, hdims⟩ : (v :: rest).length = N ∧ v.length = dims := by
    have := Option.some.inj h
    exact ⟨congrArg Prod.fst this, congrArg Prod.snd this⟩
  constructor
  · rw [export_tracks_json, List.length_map]
    rw [← hN]
    have : export_embeddings_binary wv (build_enriched_data wv tRows aRows pc) =
        (build_enriched_data wv tRows aRows pc).map
          (fun r => (List.lookup r.track_uri wv).getD []) := rfl
    rw [hcons] at this
    rw [this, List.length_map]
  · rw [embeddings_blob, List.length_flatten]
    have hrep : (v :: rest).map List.length = List.replicate (v :: rest).length D :=
      List.map_eq_replicate_iff.mpr hrows
    rw [hrep, List.sum_replicate, smul_eq_mul]
    have hvD : v.length = D := hrows v (List.mem_cons_self _ _)
    rw [hN, ← hdims, hvD]

/-- Witness for C10 at a concrete input: one track, dimension 2. -/
theorem sidecar_consistency_witness :
    1 = (export_tracks_json (build_enriched_data wvW [rowW] [] pcZero)).length ∧
    (embeddings_blob
        (export_embeddings_binary wvW (build_enriched_data wvW [rowW] [] pcZero))).length =
      1 * 2 :=
  sidecar_consistency wvW [rowW] [] pcZero 2 1 2 (by decide) (by decide)

end MusicExport
